import Mathlib

/-!
IMU firmware: elapsed time, device detection, raw samples, Kalman and Madgwick filters

A shallow embedding of `firmware/cpp/imu/imu.cpp` and
`firmware/cpp/madgwick/madgwick.cpp`, with the properties of the design
document stated and proved over it.

Conventions of the embedding:

* `long int` is a two's-complement integer of `bits` bits (`bits` is the
  width of the platform's `long`, at least 32); every arithmetic result is
  reduced with `wrapLong`.
* `uint8_t` values are naturals below 256, `int16_t` values are integers
  obtained with `toInt16`.
* `float` is an exact number (a rational, or an element of a field); the
  only partial operation is division, which has no finite value when the
  divisor is zero.
-/

namespace Firmware

/-! ## Elapsed time (`ftime_t`) -/

/-- Two's-complement value of the integer `x` once stored in a `long int` of `bits` bits. -/
def wrapLong (bits : Nat) (x : Int) : Int :=
  (x + 2 ^ (bits - 1)) % 2 ^ bits - 2 ^ (bits - 1)

/-- The integer `x` is representable in a `long int` of `bits` bits. -/
def isLong (bits : Nat) (x : Int) : Prop :=
  -(2 ^ (bits - 1)) ≤ x ∧ x < 2 ^ (bits - 1)

/-- The pair of `long int` fields of `ftime_t`. -/
structure ftime_t where
  sec : Int
  usec : Int
deriving DecidableEq, Repr

/-- The sum `ftime_t::operator+`: field-wise sum, then one carry of 1000000 microseconds. -/
def ftime_t.add (bits : Nat) (self other : ftime_t) : ftime_t :=
  let sec := wrapLong bits (self.sec + other.sec)
  let usec := wrapLong bits (self.usec + other.usec)
  if usec ≥ 1000000 then
    ⟨wrapLong bits (sec + 1), wrapLong bits (usec - 1000000)⟩
  else
    ⟨sec, usec⟩

/-- The difference `ftime_t::operator-`: field-wise difference, then one borrow of 1000000 microseconds. -/
def ftime_t.sub (bits : Nat) (self other : ftime_t) : ftime_t :=
  let sec := wrapLong bits (self.sec - other.sec)
  let usec := wrapLong bits (self.usec - other.usec)
  if usec < 0 then
    ⟨wrapLong bits (sec - 1), wrapLong bits (usec + 1000000)⟩
  else
    ⟨sec, usec⟩

/-- The duration a time stands for, in microseconds. -/
def ftime_t.us (t : ftime_t) : Int :=
  1000000 * t.sec + t.usec

/-- The microsecond field is normalized: it lies in `[0, 1000000)`. -/
def ftime_t.normalized (t : ftime_t) : Prop :=
  0 ≤ t.usec ∧ t.usec < 1000000

/-- Both fields are representable in a `long int` of `bits` bits. -/
def ftime_t.representable (bits : Nat) (t : ftime_t) : Prop :=
  isLong bits t.sec ∧ isLong bits t.usec

/-- No `long int` operation of `ftime_t::operator+` overflows on `a` and `b`. -/
def ftime_t.addInRange (bits : Nat) (a b : ftime_t) : Prop :=
  isLong bits (a.sec + b.sec) ∧ isLong bits (a.usec + b.usec) ∧
    (a.usec + b.usec ≥ 1000000 → isLong bits (a.sec + b.sec + 1))

/-- No `long int` operation of `ftime_t::operator-` overflows on `a` and `b`. -/
def ftime_t.subInRange (bits : Nat) (a b : ftime_t) : Prop :=
  isLong bits (a.sec - b.sec) ∧ isLong bits (a.usec - b.usec) ∧
    (a.usec - b.usec < 0 → isLong bits (a.sec - b.sec - 1))

/-! ## Bus transport and device driver (`IMU`) -/

/-- The three-component value class `vector_3d_t<T>`. -/
structure vector_3d_t (T : Type) where
  x : T
  y : T
  z : T
deriving DecidableEq, Repr

/-- The two-component value class `vector_2d_t<T>`. -/
structure vector_2d_t (T : Type) where
  x : T
  y : T
deriving DecidableEq, Repr

/-- The fields of `IMU` that the driver logic reads: the bus index and the detected version. -/
structure IMU where
  bus : Int
  version : Int
deriving DecidableEq, Repr

/-- What the bus answers during `IMU::IMU`: whether `open`, `ioctl(I2C_SLAVE)` and
`i2c_smbus_write_byte_data` succeed, and the six values returned by
`i2c_smbus_read_byte_data`, named after the local variables that receive them. -/
structure Probe where
  openOk : Bool
  selectOk : Bool
  writeOk : Bool
  LSM9DS0_WHO_XM_response : Int
  LSM9DS0_WHO_G_response : Int
  LSM9DS1_WHO_M_response : Int
  LSM9DS1_WHO_XG_response : Int
  LSM6DSL_WHO_M_response : Int
  LIS3MDL_WHO_XG_response : Int

/-- The six bytes of `uint8_t block[6]`. -/
abbrev Block := Fin 6 → Fin 256

/-- What the bus answers during one raw read: whether `ioctl(I2C_SLAVE)` succeeds and
the block delivered by `i2c_smbus_read_i2c_block_data`, `none` when it did not
return `size` bytes. -/
structure Transfer where
  selectOk : Bool
  block : Option Block

/-- The call `IMU::selectDevice`: throws when the `ioctl` fails. -/
def IMU.selectDevice (ok : Bool) : Except String Unit :=
  if ok then pure () else throw "Failed to select I2C device."

/-- The call `IMU::readBlock`: throws unless `size` bytes were read. -/
def IMU.readBlock (t : Transfer) : Except String Block :=
  match t.block with
  | some data => pure data
  | none => throw "Failed to read block from I2C."

/-- The conversion `(int16_t)` of an `int`: reduction modulo 2^16 into `[-32768, 32768)`. -/
def toInt16 (n : Int) : Int :=
  (n + 32768) % 65536 - 32768

/-- The expression `(int16_t)(lo | hi << 8)` on two bytes promoted to `int`. -/
def combine (lo hi : Fin 256) : Int :=
  toInt16 (Int.ofNat (lo.val ||| (hi.val <<< 8)))

/-- The read `IMU::readAcc`. -/
def IMU.readAcc (imu : IMU) (t : Transfer) : Except String (vector_3d_t Int) := do
  let block ←
    if imu.version = 1 then do
      IMU.selectDevice t.selectOk  -- LSM9DS0_ACC_ADDRESS
      IMU.readBlock t              -- 0x80 | LSM9DS0_OUT_X_L_A
    else if imu.version = 2 then do
      IMU.selectDevice t.selectOk  -- LSM9DS1_ACC_ADDRESS
      IMU.readBlock t              -- LSM9DS1_OUT_X_L_XL
    else if imu.version = 3 then do
      IMU.selectDevice t.selectOk  -- LSM6DSL_ADDRESS
      IMU.readBlock t              -- LSM6DSL_OUTX_L_XL
    else
      throw "Invalid IMU version"
  -- Combine readings for each axis.
  pure ⟨combine (block 0) (block 1), combine (block 2) (block 3), combine (block 4) (block 5)⟩

/-- The read `IMU::readMag`. -/
def IMU.readMag (imu : IMU) (t : Transfer) : Except String (vector_3d_t Int) := do
  let block ←
    if imu.version = 1 then do
      IMU.selectDevice t.selectOk  -- LSM9DS0_MAG_ADDRESS
      IMU.readBlock t              -- 0x80 | LSM9DS0_OUT_X_L_M
    else if imu.version = 2 then do
      IMU.selectDevice t.selectOk  -- LSM9DS1_MAG_ADDRESS
      IMU.readBlock t              -- LSM9DS1_OUT_X_L_M
    else if imu.version = 3 then do
      IMU.selectDevice t.selectOk  -- LIS3MDL_ADDRESS
      IMU.readBlock t              -- LIS3MDL_OUT_X_L
    else
      throw "Invalid IMU version"
  -- Combine readings for each axis.
  pure ⟨combine (block 0) (block 1), combine (block 2) (block 3), combine (block 4) (block 5)⟩

/-- The read `IMU::readGyr`. -/
def IMU.readGyr (imu : IMU) (t : Transfer) : Except String (vector_3d_t Int) := do
  let block ←
    if imu.version = 1 then do
      IMU.selectDevice t.selectOk  -- LSM9DS0_GYR_ADDRESS
      IMU.readBlock t              -- 0x80 | LSM9DS0_OUT_X_L_G
    else if imu.version = 2 then do
      IMU.selectDevice t.selectOk  -- LSM9DS1_GYR_ADDRESS
      IMU.readBlock t              -- LSM9DS1_OUT_X_L_G
    else if imu.version = 3 then do
      IMU.selectDevice t.selectOk  -- LSM6DSL_ADDRESS
      IMU.readBlock t              -- LSM6DSL_OUTX_L_G
    else
      throw "Invalid IMU version"
  -- Combine readings for each axis.
  pure ⟨combine (block 0) (block 1), combine (block 2) (block 3), combine (block 4) (block 5)⟩

/-- The write `IMU::writeAccReg` with `version` already set. -/
def IMU.writeAccReg (version : Int) (p : Probe) : Except String Unit := do
  if version = 1 then IMU.selectDevice p.selectOk
  else if version = 2 then IMU.selectDevice p.selectOk
  else if version = 3 then IMU.selectDevice p.selectOk
  else throw "Invalid IMU version"
  if !p.writeOk then throw "Failed to write byte to I2C Acc."

/-- The write `IMU::writeMagReg` with `version` already set. -/
def IMU.writeMagReg (version : Int) (p : Probe) : Except String Unit := do
  if version = 1 then IMU.selectDevice p.selectOk
  else if version = 2 then IMU.selectDevice p.selectOk
  else if version = 3 then IMU.selectDevice p.selectOk
  else throw "Invalid IMU version"
  if !p.writeOk then throw "Failed to write byte to I2C Mag."

/-- The write `IMU::writeGyrReg` with `version` already set. -/
def IMU.writeGyrReg (version : Int) (p : Probe) : Except String Unit := do
  if version = 1 then IMU.selectDevice p.selectOk
  else if version = 2 then IMU.selectDevice p.selectOk
  else if version = 3 then IMU.selectDevice p.selectOk
  else throw "Invalid IMU version"
  if !p.writeOk then throw "Failed to write byte to I2C Gyr."

/-- The constructor `IMU::IMU(int bus)`: opens the bus, probes BerryIMUv1, v2, v3 in this
order, configures the first one whose two identification values match. -/
def IMU.construct (bus : Int) (p : Probe) : Except String IMU := do
  -- Opens the I2C bus.
  if !p.openOk then
    throw ("Unable to open I2C bus " ++ toString bus ++
      "; check that the IMU is connected to this bus.")
  -- BerryIMUv1
  IMU.selectDevice p.selectOk
  let LSM9DS0_WHO_XM_response := p.LSM9DS0_WHO_XM_response
  IMU.selectDevice p.selectOk
  let LSM9DS0_WHO_G_response := p.LSM9DS0_WHO_G_response
  if LSM9DS0_WHO_G_response = 0xd4 ∧ LSM9DS0_WHO_XM_response = 0x49 then
    let version := 1
    -- Enable Gyroscope
    IMU.writeGyrReg version p  -- LSM9DS0_CTRL_REG1_G, 0b00001111
    IMU.writeGyrReg version p  -- LSM9DS0_CTRL_REG4_G, 0b00110000
    -- Accelerometer.
    IMU.writeAccReg version p  -- LSM9DS0_CTRL_REG1_XM, 0b01100111
    IMU.writeAccReg version p  -- LSM9DS0_CTRL_REG2_XM, 0b00100000
    -- Magnetometer
    IMU.writeMagReg version p  -- LSM9DS0_CTRL_REG5_XM, 0b11110000
    IMU.writeMagReg version p  -- LSM9DS0_CTRL_REG6_XM, 0b01100000
    IMU.writeMagReg version p  -- LSM9DS0_CTRL_REG7_XM, 0b00000000
    return ⟨bus, version⟩
  -- BerryIMUv2
  IMU.selectDevice p.selectOk
  let LSM9DS1_WHO_M_response := p.LSM9DS1_WHO_M_response
  IMU.selectDevice p.selectOk
  let LSM9DS1_WHO_XG_response := p.LSM9DS1_WHO_XG_response
  if LSM9DS1_WHO_XG_response = 0x68 ∧ LSM9DS1_WHO_M_response = 0x3d then
    let version := 2
    -- Gyroscope
    IMU.writeGyrReg version p  -- LSM9DS1_CTRL_REG4, 0b00111000
    IMU.writeGyrReg version p  -- LSM9DS1_CTRL_REG1_G, 0b10111000
    IMU.writeGyrReg version p  -- LSM9DS1_ORIENT_CFG_G, 0b10111000
    -- Accelerometer
    IMU.writeAccReg version p  -- LSM9DS1_CTRL_REG5_XL, 0b00111000
    IMU.writeAccReg version p  -- LSM9DS1_CTRL_REG6_XL, 0b00101000
    -- Magnetometer
    IMU.writeMagReg version p  -- LSM9DS1_CTRL_REG1_M, 0b10011100
    IMU.writeMagReg version p  -- LSM9DS1_CTRL_REG2_M, 0b01000000
    IMU.writeMagReg version p  -- LSM9DS1_CTRL_REG3_M, 0b00000000
    IMU.writeMagReg version p  -- LSM9DS1_CTRL_REG4_M, 0b00000000
    return ⟨bus, version⟩
  -- BerryIMUv3
  IMU.selectDevice p.selectOk
  let LSM6DSL_WHO_M_response := p.LSM6DSL_WHO_M_response
  IMU.selectDevice p.selectOk
  let LIS3MDL_WHO_XG_response := p.LIS3MDL_WHO_XG_response
  if LSM6DSL_WHO_M_response = 0x6A ∧ LIS3MDL_WHO_XG_response = 0x3D then
    let version := 3
    -- Gyroscope
    IMU.writeGyrReg version p  -- LSM6DSL_CTRL2_G, 0b10011100
    -- Accelerometer
    IMU.writeAccReg version p  -- LSM6DSL_CTRL1_XL, 0b10011111
    IMU.writeAccReg version p  -- LSM6DSL_CTRL8_XL, 0b11001000
    IMU.writeAccReg version p  -- LSM6DSL_CTRL3_C, 0b01000100
    -- Magnetometer
    IMU.writeMagReg version p  -- LIS3MDL_CTRL_REG1, 0b11011100
    IMU.writeMagReg version p  -- LIS3MDL_CTRL_REG2, 0b00100000
    IMU.writeMagReg version p  -- LIS3MDL_CTRL_REG3, 0b00000000
    return ⟨bus, version⟩
  throw "No IMU detected"

/-- The identification values match BerryIMUv1 (gyro 0xd4, accel/mag 0x49). -/
def Probe.matchesV1 (p : Probe) : Prop :=
  p.LSM9DS0_WHO_G_response = 0xd4 ∧ p.LSM9DS0_WHO_XM_response = 0x49

/-- The identification values match BerryIMUv2 (accel/gyro 0x68, mag 0x3d). -/
def Probe.matchesV2 (p : Probe) : Prop :=
  p.LSM9DS1_WHO_XG_response = 0x68 ∧ p.LSM9DS1_WHO_M_response = 0x3d

/-- The identification values match BerryIMUv3 (LSM6DSL 0x6A, LIS3MDL 0x3D). -/
def Probe.matchesV3 (p : Probe) : Prop :=
  p.LSM6DSL_WHO_M_response = 0x6A ∧ p.LIS3MDL_WHO_XG_response = 0x3D

/-- The signed 16-bit reading of a value in `[0, 65536)`. -/
def signed16 (n : Int) : Int :=
  if n ≥ 32768 then n - 65536 else n

/-- The axes a block stands for, as the design document words it: axis `i` is the
signed 16-bit reading of `b[2i] + 256 * b[2i+1]`. -/
def Block.axes (b : Block) : vector_3d_t Int :=
  ⟨signed16 ((b 0).val + 256 * (b 1).val),
   signed16 ((b 2).val + 256 * (b 3).val),
   signed16 ((b 4).val + 256 * (b 5).val)⟩

/-! ## Kalman filter -/

/-- The value class `angles_t`. -/
structure angles_t (T : Type) where
  yaw : T
  pitch : T
  roll : T
deriving DecidableEq, Repr

/-- The value class `vector_4d_t<float>` seen through its accessors `v00()`, `v01()`,
`v10()`, `v11()`: the 2x2 error covariance of one axis. -/
structure vector_4d_t (T : Type) where
  v00 : T
  v01 : T
  v10 : T
  v11 : T
deriving DecidableEq, Repr

/-- The `float` quotient `a / b`: a finite number when `b` is not zero; for `b = 0`
the hardware quotient is an infinity or a NaN, which no later operation of the filter
turns back into a finite number, and the model has no value for it. -/
def fdiv (a b : ℚ) : Option ℚ :=
  if b = 0 then none else some (a / b)

/-- The members of `KalmanFilter` except the `IMU` reference and the time of the last sample. -/
structure KalmanFilter where
  qAngle : ℚ
  qGyro : ℚ
  rAngle : ℚ
  minDt : ℚ
  pitchParams : vector_4d_t ℚ
  rollParams : vector_4d_t ℚ
  bias : angles_t ℚ
  kfAngle : angles_t ℚ
deriving DecidableEq, Repr

/-- The three arguments that `KalmanFilter::filterStep` receives by reference and updates. -/
structure AxisState where
  p : vector_4d_t ℚ
  kfAngle : ℚ
  bias : ℚ
deriving DecidableEq, Repr

/-- The update `KalmanFilter::filterStep`, statement by statement; `none` when a gain
is not finite. -/
def KalmanFilter.filterStep (kf : KalmanFilter) (p : vector_4d_t ℚ) (accAngle gyrRate : ℚ)
    (kfAngle bias dt : ℚ) : Option AxisState := do
  let kfAngle := kfAngle + dt * (gyrRate - bias)

  let p := { p with v00 := p.v00 + ((-dt) * (p.v10 + p.v01) + kf.qAngle * dt) }
  let p := { p with v01 := p.v01 + (-dt) * p.v11 }
  let p := { p with v10 := p.v10 + (-dt) * p.v11 }
  let p := { p with v11 := p.v11 + kf.qGyro * dt }

  let y := accAngle - kfAngle
  let s := p.v00 + kf.rAngle
  let k0 ← fdiv p.v00 s
  let k1 ← fdiv p.v10 s

  let kfAngle := kfAngle + k0 * y
  let bias := bias + k1 * y
  let p := { p with v00 := p.v00 - k0 * p.v00 }
  let p := { p with v01 := p.v01 - k0 * p.v01 }
  let p := { p with v10 := p.v10 - k1 * p.v00 }
  let p := { p with v11 := p.v11 - k1 * p.v01 }
  pure ⟨p, kfAngle, bias⟩

/-- What one call of `KalmanFilter::step` obtains from outside the filter: the elapsed
time `dt` it ends up with after the rate limit, and the readings of
`imu.getAccAngle()` and `imu.getGyrRate()`. -/
structure StepInput where
  dt : ℚ
  accAngle : vector_2d_t ℚ
  gyrRate : vector_3d_t ℚ

/-- The method `KalmanFilter::step` after the clock and the IMU have been read: one
`filterStep` for the pitch, one for the roll. The new `kfAngle` is what it returns. -/
def KalmanFilter.step (kf : KalmanFilter) (i : StepInput) : Option KalmanFilter := do
  let pitch := i.accAngle.x
  let roll := i.accAngle.y
  let pitchRate := i.gyrRate.x
  let rollRate := i.gyrRate.z
  -- Kalman filter.
  let a ← kf.filterStep kf.pitchParams pitch pitchRate kf.kfAngle.pitch kf.bias.pitch i.dt
  let b ← kf.filterStep kf.rollParams roll rollRate kf.kfAngle.roll kf.bias.roll i.dt
  pure { kf with
    pitchParams := a.p, rollParams := b.p,
    kfAngle := { kf.kfAngle with pitch := a.kfAngle, roll := b.kfAngle },
    bias := { kf.bias with pitch := a.bias, roll := b.bias } }

/-- The per-axis update as the design document words it: predict, propagate the
covariance with the old `v11`, then correct, `v10` with the corrected `v00` and `v11`
with the corrected `v01`. -/
def specFilterStep (qAngle qGyro rAngle : ℚ) (angle bias v00 v01 v10 v11 : ℚ)
    (accAngle gyrRate dt : ℚ) : Option AxisState :=
  let angle1 := angle + dt * (gyrRate - bias)
  let P00 := v00 + (-dt * (v10 + v01) + qAngle * dt)
  let P01 := v01 - dt * v11
  let P10 := v10 - dt * v11
  let P11 := v11 + qGyro * dt
  let y := accAngle - angle1
  let s := P00 + rAngle
  (fdiv P00 s).bind fun k0 =>
  (fdiv P10 s).bind fun k1 =>
  let v00' := P00 - k0 * P00
  let v01' := P01 - k0 * P01
  let v10' := P10 - k1 * v00'
  let v11' := P11 - k1 * v01'
  some ⟨⟨v00', v01', v10', v11'⟩, angle1 + k0 * y, bias + k1 * y⟩

/-- The constant `RAD_TO_DEG`. -/
def RAD_TO_DEG {α : Type} [Field α] : α := 57.29578

/-- The C library function `atan2(y, x)` on exact reals: the angle in `(-π, π]` of the
point `(x, y)`, and 0 at the origin. -/
noncomputable def atan2 (y x : ℝ) : ℝ :=
  Complex.arg ⟨x, y⟩

/-- The method `IMU::getAccAngle`, over any exact number type with its `atan2`. -/
def IMU.getAccAngle {α : Type} [Field α] (atan2 : α → α → α) (imu : IMU) (t : Transfer) :
    Except String (vector_2d_t α) := do
  let acc ← imu.readAcc t
  let pitch := atan2 (acc.z : α) (acc.y : α) * RAD_TO_DEG
  let roll := atan2 (acc.x : α) (acc.y : α) * RAD_TO_DEG
  pure ⟨pitch, roll⟩

/-! ## Madgwick filter -/

namespace IMUMath

/-- The value class `IMUMath::Quaternion`. -/
structure Quaternion (α : Type) where
  w : α
  x : α
  y : α
  z : α
deriving DecidableEq, Repr

variable {α : Type} [Field α]

end IMUMath

/-- The members of `Madgwick`: the gain `beta` and the orientation `q`. -/
structure Madgwick (α : Type) where
  beta : α
  q : IMUMath.Quaternion α

namespace Madgwick

variable {α : Type} [Field α]

/-- The gravity objective function `F_g` of `Madgwick::update`, from the quaternion
`prevQ` and the normalized acceleration `qA`. -/
def F_g (prevQ qA : IMUMath.Quaternion α) : Fin 3 → α :=
  ![2 * (prevQ.x * prevQ.z - prevQ.w * prevQ.y) - qA.x,
    2 * (prevQ.w * prevQ.x + prevQ.y * prevQ.z) - qA.y,
    2 * (0.5 - prevQ.x * prevQ.x - prevQ.y * prevQ.y) - qA.z]

/-- The array `J_g[3][4]` of `Madgwick::update`. -/
def J_g (prevQ : IMUMath.Quaternion α) : Matrix (Fin 3) (Fin 4) α :=
  !![-2 * prevQ.y, 2 * prevQ.z, -2 * prevQ.w, 2 * prevQ.x;
     2 * prevQ.x, 2 * prevQ.w, 2 * prevQ.z, 2 * prevQ.y;
     0, -4 * prevQ.x, -4 * prevQ.y, 0]

/-- The gradient `qGrad` of `Madgwick::update` before it is normalized. -/
def qGrad (prevQ qA : IMUMath.Quaternion α) : IMUMath.Quaternion α :=
  let F_g := F_g prevQ qA
  let J_g := J_g prevQ
  ⟨J_g 0 0 * F_g 0 + J_g 1 0 * F_g 1 + J_g 2 0 * F_g 2,
   J_g 0 1 * F_g 0 + J_g 1 1 * F_g 1 + J_g 2 1 * F_g 2,
   J_g 0 2 * F_g 0 + J_g 1 2 * F_g 1 + J_g 2 2 * F_g 2,
   J_g 0 3 * F_g 0 + J_g 1 3 * F_g 1 + J_g 2 3 * F_g 2⟩

/-- The cost `(1/2) * ||F_g||^2` that the gradient step descends. -/
def cost (prevQ qA : IMUMath.Quaternion α) : α :=
  1 / 2 * ∑ i : Fin 3, F_g prevQ qA i ^ 2

end Madgwick

/-! ### Arithmetic of `wrapLong` -/

theorem two_pow_bits (bits : Nat) (h : 32 ≤ bits) :
    (2 : Int) ^ bits = 2 * 2 ^ (bits - 1) := by
  have hb : bits = (bits - 1) + 1 := by omega
  conv_lhs => rw [hb]
  rw [pow_succ]; ring

theorem two_pow_31_le (bits : Nat) (h : 32 ≤ bits) :
    (2147483648 : Int) ≤ 2 ^ (bits - 1) := by
  have h31 : 31 ≤ bits - 1 := by omega
  have : (2 : Int) ^ 31 ≤ 2 ^ (bits - 1) :=
    pow_le_pow_right₀ (by norm_num) h31
  simpa using this

theorem wrapLong_eq_self (bits : Nat) (h : 32 ≤ bits) (x : Int)
    (hx : isLong bits x) : wrapLong bits x = x := by
  unfold wrapLong
  obtain ⟨h1, h2⟩ := hx
  rw [two_pow_bits bits h]
  rw [Int.emod_eq_of_lt (by linarith) (by linarith)]
  ring

theorem wrapLong_isLong (bits : Nat) (h : 32 ≤ bits) (x : Int) :
    isLong bits (wrapLong bits x) := by
  unfold wrapLong isLong
  have hM := two_pow_31_le bits h
  have hpos : (0 : Int) < 2 ^ bits := by positivity
  have h1 := Int.emod_nonneg (x + 2 ^ (bits - 1)) (ne_of_gt hpos)
  have h2 := Int.emod_lt_of_pos (x + 2 ^ (bits - 1)) hpos
  have h3 := two_pow_bits bits h
  constructor <;> linarith

theorem wrapLong_congr (bits : Nat) (x y : Int)
    (hxy : x ≡ y [ZMOD 2 ^ bits]) : wrapLong bits x = wrapLong bits y := by
  unfold wrapLong
  have : (x + 2 ^ (bits - 1)) % 2 ^ bits = (y + 2 ^ (bits - 1)) % 2 ^ bits :=
    Int.ModEq.add_right _ hxy
  rw [this]

theorem wrapLong_modEq (bits : Nat) (x : Int) :
    wrapLong bits x ≡ x [ZMOD 2 ^ bits] := by
  unfold wrapLong
  have h : (x + 2 ^ (bits - 1)) % 2 ^ bits ≡ x + 2 ^ (bits - 1) [ZMOD 2 ^ bits] :=
    Int.mod_modEq _ _
  simpa using Int.ModEq.sub_right (2 ^ (bits - 1)) h

theorem isLong_of_bounds (bits : Nat) (h : 32 ≤ bits) (x : Int)
    (h1 : -2147483648 ≤ x) (h2 : x < 2147483648) : isLong bits x := by
  have hM := two_pow_31_le bits h
  constructor <;> linarith

/-- Storing a value congruent to a representable `x` yields `x`. -/
theorem wrapLong_eq_of_modEq (bits : Nat) (h : 32 ≤ bits) (x y : Int)
    (hx : isLong bits x) (hxy : y ≡ x [ZMOD 2 ^ bits]) : wrapLong bits y = x := by
  rw [wrapLong_congr bits y x hxy, wrapLong_eq_self bits h x hx]

/-! ### Elapsed-time theorems -/

/-- C5 (as stated, refuted): with a 64-bit `long`, `(sec=1, usec=900000) - (sec=1, usec=950000)`
is not `(sec=0, usec=950000)`. -/
theorem ftime_sub_example_ne_claimed :
    ftime_t.sub 64 ⟨1, 900000⟩ ⟨1, 950000⟩ ≠ ⟨0, 950000⟩ := by
  decide

/-- C5 (amended): for every `long` width of at least 32 bits,
`(sec=1, usec=900000) - (sec=1, usec=950000)` borrows one second and yields
`(sec=-1, usec=950000)`, which stands for -0.05 s. -/
theorem ftime_sub_example (bits : Nat) (h : 32 ≤ bits) :
    ftime_t.sub bits ⟨1, 900000⟩ ⟨1, 950000⟩ = ⟨-1, 950000⟩ ∧
      (ftime_t.sub bits ⟨1, 900000⟩ ⟨1, 950000⟩).us = -50000 := by
  have e1 : wrapLong bits ((1 : Int) - 1) = 0 :=
    wrapLong_eq_self bits h _ (isLong_of_bounds bits h _ (by norm_num) (by norm_num))
  have e2 : wrapLong bits ((900000 : Int) - 950000) = -50000 := by
    have := wrapLong_eq_self bits h ((900000 : Int) - 950000)
      (isLong_of_bounds bits h _ (by norm_num) (by norm_num))
    rw [this]; norm_num
  have e3 : wrapLong bits ((0 : Int) - 1) = -1 := by
    have := wrapLong_eq_self bits h ((0 : Int) - 1)
      (isLong_of_bounds bits h _ (by norm_num) (by norm_num))
    rw [this]; norm_num
  have e4 : wrapLong bits ((-50000 : Int) + 1000000) = 950000 := by
    have := wrapLong_eq_self bits h ((-50000 : Int) + 1000000)
      (isLong_of_bounds bits h _ (by norm_num) (by norm_num))
    rw [this]; norm_num
  have key : ftime_t.sub bits ⟨1, 900000⟩ ⟨1, 950000⟩ = ⟨-1, 950000⟩ := by
    simp only [ftime_t.sub, e1, e2, e3, e4]
    norm_num
  refine ⟨key, ?_⟩
  rw [key]
  norm_num [ftime_t.us]

/-- Witness of `ftime_sub_example` for a 64-bit `long`. -/
theorem ftime_sub_example_witness :
    32 ≤ 64 ∧ ftime_t.sub 64 ⟨1, 900000⟩ ⟨1, 950000⟩ = ⟨-1, 950000⟩ :=
  ⟨by decide, (ftime_sub_example 64 (by decide)).1⟩

/-- C7: for every `long` width of at least 32 bits and all times `a`, `b` with
microsecond fields in `[0, 1000000)`, both `a + b` and `a - b` have a microsecond
field in `[0, 1000000)`. -/
theorem ftime_normalized_preserved (bits : Nat) (h : 32 ≤ bits) (a b : ftime_t)
    (ha : a.normalized) (hb : b.normalized) :
    (ftime_t.add bits a b).normalized ∧ (ftime_t.sub bits a b).normalized := by
  obtain ⟨ha0, ha1⟩ := ha
  obtain ⟨hb0, hb1⟩ := hb
  have eA : wrapLong bits (a.usec + b.usec) = a.usec + b.usec :=
    wrapLong_eq_self bits h _ (isLong_of_bounds bits h _ (by omega) (by omega))
  have eA2 : wrapLong bits (a.usec + b.usec - 1000000) = a.usec + b.usec - 1000000 :=
    wrapLong_eq_self bits h _ (isLong_of_bounds bits h _ (by omega) (by omega))
  have eS : wrapLong bits (a.usec - b.usec) = a.usec - b.usec :=
    wrapLong_eq_self bits h _ (isLong_of_bounds bits h _ (by omega) (by omega))
  have eS2 : wrapLong bits (a.usec - b.usec + 1000000) = a.usec - b.usec + 1000000 :=
    wrapLong_eq_self bits h _ (isLong_of_bounds bits h _ (by omega) (by omega))
  constructor
  · simp only [ftime_t.add, ftime_t.normalized, eA]
    split_ifs with hc
    · simp only [eA2]; omega
    · simp only []; omega
  · simp only [ftime_t.sub, ftime_t.normalized, eS]
    split_ifs with hc
    · simp only [eS2]; omega
    · simp only []; omega

/-- Witness of `ftime_normalized_preserved`: a carry and a borrow on a 64-bit `long`. -/
theorem ftime_normalized_preserved_witness :
    (ftime_t.add 64 ⟨3, 700000⟩ ⟨4, 600000⟩).normalized ∧
      (ftime_t.sub 64 ⟨3, 700000⟩ ⟨4, 600000⟩).normalized :=
  ftime_normalized_preserved 64 (by decide) ⟨3, 700000⟩ ⟨4, 600000⟩
    (by constructor <;> decide) (by constructor <;> decide)

/-- C10 (as stated, refuted): with a 64-bit `long`, adding one second to
`(sec = LONG_MAX, usec = 0)` wraps the seconds, so the represented duration is
not the sum of the two durations. -/
theorem ftime_add_us_overflow :
    (ftime_t.add 64 ⟨9223372036854775807, 0⟩ ⟨1, 0⟩).us ≠
      (ftime_t.us ⟨9223372036854775807, 0⟩) + (ftime_t.us ⟨1, 0⟩) := by
  decide

/-- C10 (amended): for every `long` width of at least 32 bits, whenever no
`long int` operation of the operator overflows, `us (a + b) = us a + us b` and
`us (a - b) = us a - us b` (normalized or not); and for all representable,
normalized `a` and `b` the round trip `(a + b) - b` returns exactly `a`. -/
theorem ftime_duration_preserved (bits : Nat) (h : 32 ≤ bits) (a b : ftime_t) :
    (ftime_t.addInRange bits a b →
        (ftime_t.add bits a b).us = a.us + b.us) ∧
    (ftime_t.subInRange bits a b →
        (ftime_t.sub bits a b).us = a.us - b.us) ∧
    (ftime_t.representable bits a → ftime_t.representable bits b →
        a.normalized → b.normalized →
        ftime_t.sub bits (ftime_t.add bits a b) b = a) := by
  refine ⟨?_, ?_, ?_⟩
  · rintro ⟨h1, h2, h3⟩
    have e1 := wrapLong_eq_self bits h _ h1
    have e2 := wrapLong_eq_self bits h _ h2
    simp only [ftime_t.add, ftime_t.us, e1, e2]
    split_ifs with hc
    · have e3 := wrapLong_eq_self bits h _ (h3 hc)
      have e4 : wrapLong bits (a.usec + b.usec - 1000000) = a.usec + b.usec - 1000000 := by
        apply wrapLong_eq_self bits h
        have hM := two_pow_31_le bits h
        obtain ⟨_, h2b⟩ := h2
        constructor <;> linarith
      simp only [e3, e4]; ring
    · simp only []; ring
  · rintro ⟨h1, h2, h3⟩
    have e1 := wrapLong_eq_self bits h _ h1
    have e2 := wrapLong_eq_self bits h _ h2
    simp only [ftime_t.sub, ftime_t.us, e1, e2]
    split_ifs with hc
    · have e3 := wrapLong_eq_self bits h _ (h3 hc)
      have e4 : wrapLong bits (a.usec - b.usec + 1000000) = a.usec - b.usec + 1000000 := by
        apply wrapLong_eq_self bits h
        have hM := two_pow_31_le bits h
        obtain ⟨h2a, _⟩ := h2
        constructor <;> linarith
      simp only [e3, e4]; ring
    · simp only []; ring
  · rintro ⟨has, _⟩ ⟨_, _⟩ ⟨ha0, ha1⟩ ⟨hb0, hb1⟩
    have eA : wrapLong bits (a.usec + b.usec) = a.usec + b.usec :=
      wrapLong_eq_self bits h _ (isLong_of_bounds bits h _ (by omega) (by omega))
    have eA2 : wrapLong bits (a.usec + b.usec - 1000000) = a.usec + b.usec - 1000000 :=
      wrapLong_eq_self bits h _ (isLong_of_bounds bits h _ (by omega) (by omega))
    have eB : wrapLong bits (a.usec + b.usec - 1000000 - b.usec) = a.usec - 1000000 := by
      have := wrapLong_eq_self bits h (a.usec + b.usec - 1000000 - b.usec)
        (isLong_of_bounds bits h _ (by omega) (by omega))
      rw [this]; ring
    have eB2 : wrapLong bits (a.usec - 1000000 + 1000000) = a.usec := by
      have := wrapLong_eq_self bits h (a.usec - 1000000 + 1000000)
        (isLong_of_bounds bits h _ (by omega) (by omega))
      rw [this]; ring
    have eC : wrapLong bits (a.usec + b.usec - b.usec) = a.usec := by
      have := wrapLong_eq_self bits h (a.usec + b.usec - b.usec)
        (isLong_of_bounds bits h _ (by omega) (by omega))
      rw [this]; ring
    -- the seconds: every stored value is congruent to the exact one modulo 2 ^ bits
    have m0 := wrapLong_modEq bits (a.sec + b.sec)
    have m1 := wrapLong_modEq bits (wrapLong bits (a.sec + b.sec) + 1)
    have sCarry : wrapLong bits (wrapLong bits
        (wrapLong bits (wrapLong bits (a.sec + b.sec) + 1) - b.sec) - 1) = a.sec := by
      apply wrapLong_eq_of_modEq bits h _ _ has
      have m2 := wrapLong_modEq bits (wrapLong bits (wrapLong bits (a.sec + b.sec) + 1) - b.sec)
      have step1 : wrapLong bits (wrapLong bits (a.sec + b.sec) + 1) ≡ a.sec + b.sec + 1
          [ZMOD 2 ^ bits] := m1.trans (m0.add_right 1)
      have step2 : wrapLong bits (wrapLong bits (wrapLong bits (a.sec + b.sec) + 1) - b.sec)
          ≡ a.sec + b.sec + 1 - b.sec [ZMOD 2 ^ bits] := m2.trans (step1.sub_right b.sec)
      have step3 := step2.sub_right 1
      have e : a.sec + b.sec + 1 - b.sec - 1 = a.sec := by ring
      rw [e] at step3
      exact step3
    have sPlain : wrapLong bits (wrapLong bits (a.sec + b.sec) - b.sec) = a.sec := by
      apply wrapLong_eq_of_modEq bits h _ _ has
      have step := m0.sub_right b.sec
      have e : a.sec + b.sec - b.sec = a.sec := by ring
      rw [e] at step
      exact step
    simp only [ftime_t.add, eA]
    split_ifs with hc
    · simp only [ftime_t.sub, eA2, eB]
      have hneg : a.usec - 1000000 < 0 := by omega
      simp only [hneg, if_true, eB2, sCarry]
    · simp only [ftime_t.sub, eC]
      have hnn : ¬ a.usec < 0 := by omega
      simp only [hnn, if_false, sPlain]

/-- Witness of `ftime_duration_preserved` on a 64-bit `long`: a carry, a borrow and a round trip. -/
theorem ftime_duration_preserved_witness :
    (ftime_t.add 64 ⟨3, 700000⟩ ⟨4, 600000⟩).us = 3700000 + 4600000 ∧
    (ftime_t.sub 64 ⟨3, 700000⟩ ⟨4, 600000⟩).us = 3700000 - 4600000 ∧
    ftime_t.sub 64 (ftime_t.add 64 ⟨3, 700000⟩ ⟨4, 600000⟩) ⟨4, 600000⟩ = ⟨3, 700000⟩ :=
  have t := ftime_duration_preserved 64 (by decide) ⟨3, 700000⟩ ⟨4, 600000⟩
  ⟨t.1 (by unfold ftime_t.addInRange isLong; norm_num),
   t.2.1 (by unfold ftime_t.subInRange isLong; norm_num),
   t.2.2 (by unfold ftime_t.representable isLong; norm_num)
     (by unfold ftime_t.representable isLong; norm_num)
     (by unfold ftime_t.normalized; norm_num) (by unfold ftime_t.normalized; norm_num)⟩


/-! ### Device detection and raw samples -/

theorem combine_eq (lo hi : Fin 256) :
    combine lo hi = signed16 (lo.val + 256 * hi.val) := by
  have hlo := lo.isLt
  have hhi := hi.isLt
  have hor : lo.val ||| (hi.val <<< 8) = lo.val + 256 * hi.val := by
    have h8 := Nat.mul_add_lt_is_or (i := 8) (b := lo.val) (by norm_num) hi.val
    rw [Nat.shiftLeft_eq, Nat.lor_comm, Nat.mul_comm, ← h8]
    norm_num
    omega
  unfold combine toInt16 signed16
  rw [hor]
  simp only [Int.ofNat_eq_coe]
  push_cast
  split_ifs with hc <;> omega

/-- C1: when the bus opens and every device selection and register write succeeds,
`IMU::IMU` returns the driver of the first of BerryIMUv1, v2, v3 whose two
identification values both match; so a response set that matches exactly one
variant yields that version, and a response set that matches none fails with
"No IMU detected" (whatever the writes would answer). -/
theorem IMU_detection (bus : Int) (p : Probe) (ho : p.openOk = true)
    (hs : p.selectOk = true) :
    (p.writeOk = true → p.matchesV1 → IMU.construct bus p = .ok ⟨bus, 1⟩) ∧
    (p.writeOk = true → ¬ p.matchesV1 → p.matchesV2 → IMU.construct bus p = .ok ⟨bus, 2⟩) ∧
    (p.writeOk = true → ¬ p.matchesV1 → ¬ p.matchesV2 → p.matchesV3 →
        IMU.construct bus p = .ok ⟨bus, 3⟩) ∧
    (¬ p.matchesV1 → ¬ p.matchesV2 → ¬ p.matchesV3 →
        IMU.construct bus p = .error "No IMU detected") := by
  refine ⟨?_, ?_, ?_, ?_⟩
  · intro hw h1
    simp [IMU.construct, IMU.selectDevice, IMU.writeGyrReg, IMU.writeAccReg, IMU.writeMagReg,
      ho, hs, hw, h1.1, h1.2]
    rfl
  · intro hw h1 h2
    unfold Probe.matchesV1 at h1
    simp [IMU.construct, IMU.selectDevice, IMU.writeGyrReg, IMU.writeAccReg, IMU.writeMagReg,
      ho, hs, hw, h1, h2.1, h2.2]
    rfl
  · intro hw h1 h2 h3
    unfold Probe.matchesV1 at h1
    unfold Probe.matchesV2 at h2
    simp [IMU.construct, IMU.selectDevice, IMU.writeGyrReg, IMU.writeAccReg, IMU.writeMagReg,
      ho, hs, hw, h1, h2, h3.1, h3.2]
    rfl
  · intro h1 h2 h3
    unfold Probe.matchesV1 at h1
    unfold Probe.matchesV2 at h2
    unfold Probe.matchesV3 at h3
    simp [IMU.construct, IMU.selectDevice, ho, hs, h1, h2, h3]
    rfl

/-- Witness of `IMU_detection`: a response set that matches BerryIMUv2 only. -/
theorem IMU_detection_witness :
    IMU.construct 1 ⟨true, true, true, 0x49, 0x00, 0x3d, 0x68, 0x6A, 0x00⟩ = .ok ⟨1, 2⟩ :=
  (IMU_detection 1 ⟨true, true, true, 0x49, 0x00, 0x3d, 0x68, 0x6A, 0x00⟩ rfl rfl).2.1 rfl
    (by unfold Probe.matchesV1; decide) (by unfold Probe.matchesV2; decide)

theorem combine_axes (b : Block) :
    (⟨combine (b 0) (b 1), combine (b 2) (b 3), combine (b 4) (b 5)⟩ : vector_3d_t Int) =
      b.axes := by
  simp only [combine_eq, Block.axes]

theorem readAcc_ok (imu : IMU) (t : Transfer) (b : Block)
    (hv : imu.version = 1 ∨ imu.version = 2 ∨ imu.version = 3)
    (hs : t.selectOk = true) (hb : t.block = some b) : IMU.readAcc imu t = .ok b.axes := by
  rcases hv with hv | hv | hv <;>
    simp [IMU.readAcc, IMU.selectDevice, IMU.readBlock, hv, hs, hb, combine_axes] <;> rfl

theorem readGyr_ok (imu : IMU) (t : Transfer) (b : Block)
    (hv : imu.version = 1 ∨ imu.version = 2 ∨ imu.version = 3)
    (hs : t.selectOk = true) (hb : t.block = some b) : IMU.readGyr imu t = .ok b.axes := by
  rcases hv with hv | hv | hv <;>
    simp [IMU.readGyr, IMU.selectDevice, IMU.readBlock, hv, hs, hb, combine_axes] <;> rfl

theorem readMag_ok (imu : IMU) (t : Transfer) (b : Block)
    (hv : imu.version = 1 ∨ imu.version = 2 ∨ imu.version = 3)
    (hs : t.selectOk = true) (hb : t.block = some b) : IMU.readMag imu t = .ok b.axes := by
  rcases hv with hv | hv | hv <;>
    simp [IMU.readMag, IMU.selectDevice, IMU.readBlock, hv, hs, hb, combine_axes] <;> rfl

/-- C2: for an IMU of version 1, 2 or 3 and every 6-byte block `b` delivered by the
bus, `readAcc`, `readGyr` and `readMag` each return the axes whose `i`-th component
is the signed 16-bit reading of `b[2i] + 256 * b[2i+1]`; a high byte of at least
0x80 gives `b[2i] + 256 * b[2i+1] - 65536`, a smaller one gives the sum itself, and
the block `[0x00,0x01,0x02,0x03,0x04,0x05]` gives `(0x0100, 0x0302, 0x0504)`. -/
theorem raw_sample_combination (imu : IMU) (t : Transfer) (b : Block)
    (hv : imu.version = 1 ∨ imu.version = 2 ∨ imu.version = 3)
    (hs : t.selectOk = true) (hb : t.block = some b) :
    IMU.readAcc imu t = .ok b.axes ∧ IMU.readGyr imu t = .ok b.axes ∧
    IMU.readMag imu t = .ok b.axes ∧
    (∀ lo hi : Fin 256, 0x80 ≤ hi.val →
        combine lo hi = (lo.val : Int) + 256 * (hi.val : Int) - 65536) ∧
    (∀ lo hi : Fin 256, hi.val < 0x80 →
        combine lo hi = (lo.val : Int) + 256 * (hi.val : Int)) ∧
    (b = ![0x00, 0x01, 0x02, 0x03, 0x04, 0x05] → b.axes = ⟨0x0100, 0x0302, 0x0504⟩) := by
  refine ⟨readAcc_ok imu t b hv hs hb, readGyr_ok imu t b hv hs hb,
    readMag_ok imu t b hv hs hb, ?_, ?_, ?_⟩
  · intro lo hi hhi
    have := lo.isLt
    rw [combine_eq]; unfold signed16
    split_ifs with hc <;> omega
  · intro lo hi hhi
    have := lo.isLt
    rw [combine_eq]; unfold signed16
    split_ifs with hc <;> omega
  · rintro rfl
    decide

/-- Witness of `raw_sample_combination`: a version-3 IMU reading the block
`[0x00,0x01,0x02,0x03,0x04,0x05]`. -/
theorem raw_sample_combination_witness :
    IMU.readAcc ⟨1, 3⟩ ⟨true, some ![0x00, 0x01, 0x02, 0x03, 0x04, 0x05]⟩ =
      .ok ⟨0x0100, 0x0302, 0x0504⟩ :=
  have t := raw_sample_combination ⟨1, 3⟩ ⟨true, some ![0x00, 0x01, 0x02, 0x03, 0x04, 0x05]⟩
    ![0x00, 0x01, 0x02, 0x03, 0x04, 0x05] (by decide) rfl rfl
  (t.2.2.2.2.2 rfl) ▸ t.1

/-! ### Kalman filter theorems -/

/-- C6: for every state and input, `KalmanFilter::filterStep` is the per-axis update
of the design document: both are undefined together (zero innovation variance) and
otherwise give the same angle, bias and covariance. -/
theorem filterStep_eq_spec (kf : KalmanFilter) (p : vector_4d_t ℚ)
    (accAngle gyrRate kfAngle bias dt : ℚ) :
    kf.filterStep p accAngle gyrRate kfAngle bias dt =
      specFilterStep kf.qAngle kf.qGyro kf.rAngle kfAngle bias p.v00 p.v01 p.v10 p.v11
        accAngle gyrRate dt := by
  simp only [KalmanFilter.filterStep, specFilterStep, fdiv]
  split_ifs with hs
  · rfl
  · simp only [Option.bind_eq_bind, Option.some_bind, Option.pure_def, Option.some.injEq,
      AxisState.mk.injEq, vector_4d_t.mk.injEq]
    refine ⟨⟨?_, ?_, ?_, ?_⟩, ?_, ?_⟩ <;> ring_nf

theorem atan2_zero_of_pos (y : ℝ) (hy : 0 < y) : atan2 0 y = 0 := by
  unfold atan2
  have h : (⟨y, 0⟩ : ℂ) = (y : ℂ) := rfl
  rw [h]
  exact Complex.arg_ofReal_of_nonneg hy.le

/-- C8: for an IMU of version 1, 2 or 3 and every block `b` delivered by the bus,
`getAccAngle` returns `pitch = atan2(z, y) * RAD_TO_DEG` and
`roll = atan2(x, y) * RAD_TO_DEG` of the raw acceleration `(x, y, z)` of `b`; hence it
returns `(0, 0)` whenever `x = 0`, `z = 0` and `y > 0`, in particular for the upright
acceleration `(0, 1, 0)`. -/
theorem getAccAngle_upright (imu : IMU) (t : Transfer) (b : Block)
    (hv : imu.version = 1 ∨ imu.version = 2 ∨ imu.version = 3)
    (hs : t.selectOk = true) (hb : t.block = some b) :
    IMU.getAccAngle atan2 imu t =
        .ok ⟨atan2 (b.axes.z : ℝ) (b.axes.y : ℝ) * RAD_TO_DEG,
             atan2 (b.axes.x : ℝ) (b.axes.y : ℝ) * RAD_TO_DEG⟩ ∧
    (b.axes.x = 0 → b.axes.z = 0 → 0 < b.axes.y →
        IMU.getAccAngle atan2 imu t = .ok ⟨0, 0⟩) ∧
    (b.axes = ⟨0, 1, 0⟩ → IMU.getAccAngle atan2 imu t = .ok ⟨0, 0⟩) := by
  have hread : imu.readAcc t = .ok b.axes := readAcc_ok imu t b hv hs hb
  have hfst : IMU.getAccAngle atan2 imu t =
      .ok ⟨atan2 (b.axes.z : ℝ) (b.axes.y : ℝ) * RAD_TO_DEG,
           atan2 (b.axes.x : ℝ) (b.axes.y : ℝ) * RAD_TO_DEG⟩ := by
    simp only [IMU.getAccAngle, hread]
    rfl
  have hzero : b.axes.x = 0 → b.axes.z = 0 → 0 < b.axes.y →
      IMU.getAccAngle atan2 imu t = .ok ⟨0, 0⟩ := by
    intro hx hz hy
    have hy' : (0 : ℝ) < (b.axes.y : ℝ) := by exact_mod_cast hy
    rw [hfst, hx, hz]
    simp [atan2_zero_of_pos _ hy']
  refine ⟨hfst, hzero, ?_⟩
  intro h
  apply hzero <;> simp [h]

/-- Witness of `getAccAngle_upright`: a version-1 IMU reading the block of the
acceleration `(0, 1, 0)`. -/
theorem getAccAngle_upright_witness :
    IMU.getAccAngle atan2 ⟨1, 1⟩ ⟨true, some ![0, 0, 1, 0, 0, 0]⟩ = .ok ⟨0, 0⟩ :=
  (getAccAngle_upright ⟨1, 1⟩ ⟨true, some ![0, 0, 1, 0, 0, 0]⟩ ![0, 0, 1, 0, 0, 0]
    (by decide) rfl rfl).2.2 (by decide)

/-! ### Madgwick filter theorems -/

theorem hasDerivAt_sq_half_sum (f0 f1 f2 : ℝ → ℝ) (d0 d1 d2 t : ℝ)
    (h0 : HasDerivAt f0 d0 t) (h1 : HasDerivAt f1 d1 t) (h2 : HasDerivAt f2 d2 t) :
    HasDerivAt (fun s => 1 / 2 * (f0 s ^ 2 + f1 s ^ 2 + f2 s ^ 2))
      (d0 * f0 t + d1 * f1 t + d2 * f2 t) t := by
  have h := (((h0.pow 2).add (h1.pow 2)).add (h2.pow 2)).const_mul (1 / 2 : ℝ)
  convert h using 1
  simp
  ring

theorem F_g_hasDerivAt_w (q a : IMUMath.Quaternion ℝ) (i : Fin 3) :
    HasDerivAt (fun t => Madgwick.F_g ⟨t, q.x, q.y, q.z⟩ a i) (Madgwick.J_g q i 0) q.w := by
  fin_cases i
  · have h := (((hasDerivAt_const q.w (q.x * q.z)).sub
      ((hasDerivAt_id q.w).mul_const q.y)).const_mul 2).sub_const a.x
    convert h using 1
    simp [Madgwick.J_g]
  · have h := ((((hasDerivAt_id q.w).mul_const q.x).add_const (q.y * q.z)).const_mul
      2).sub_const a.y
    convert h using 1
    simp [Madgwick.J_g]
  · have h := hasDerivAt_const q.w (2 * (0.5 - q.x * q.x - q.y * q.y) - a.z)
    convert h using 1

theorem F_g_hasDerivAt_x (q a : IMUMath.Quaternion ℝ) (i : Fin 3) :
    HasDerivAt (fun t => Madgwick.F_g ⟨q.w, t, q.y, q.z⟩ a i) (Madgwick.J_g q i 1) q.x := by
  fin_cases i
  · have h := ((((hasDerivAt_id q.x).mul_const q.z).sub_const (q.w * q.y)).const_mul
      2).sub_const a.x
    convert h using 1
    simp [Madgwick.J_g]
  · have h := ((((hasDerivAt_id q.x).const_mul q.w).add_const (q.y * q.z)).const_mul
      2).sub_const a.y
    convert h using 1
    simp [Madgwick.J_g]
  · have h := (((((hasDerivAt_const q.x (0.5 : ℝ)).sub
      ((hasDerivAt_id q.x).mul (hasDerivAt_id q.x))).sub_const (q.y * q.y)).const_mul
      2).sub_const a.z)
    convert h using 1
    simp [Madgwick.J_g]
    ring

theorem F_g_hasDerivAt_y (q a : IMUMath.Quaternion ℝ) (i : Fin 3) :
    HasDerivAt (fun t => Madgwick.F_g ⟨q.w, q.x, t, q.z⟩ a i) (Madgwick.J_g q i 2) q.y := by
  fin_cases i
  · have h := (((hasDerivAt_const q.y (q.x * q.z)).sub
      ((hasDerivAt_id q.y).const_mul q.w)).const_mul 2).sub_const a.x
    convert h using 1
    simp [Madgwick.J_g]
  · have h := ((((hasDerivAt_id q.y).mul_const q.z).const_add (q.w * q.x)).const_mul
      2).sub_const a.y
    convert h using 1
    simp [Madgwick.J_g]
  · have h := ((((hasDerivAt_const q.y ((0.5 : ℝ) - q.x * q.x)).sub
      ((hasDerivAt_id q.y).mul (hasDerivAt_id q.y))).const_mul 2).sub_const a.z)
    convert h using 1
    simp [Madgwick.J_g]
    ring

theorem F_g_hasDerivAt_z (q a : IMUMath.Quaternion ℝ) (i : Fin 3) :
    HasDerivAt (fun t => Madgwick.F_g ⟨q.w, q.x, q.y, t⟩ a i) (Madgwick.J_g q i 3) q.z := by
  fin_cases i
  · have h := ((((hasDerivAt_id q.z).const_mul q.x).sub_const (q.w * q.y)).const_mul
      2).sub_const a.x
    convert h using 1
    simp [Madgwick.J_g]
  · have h := ((((hasDerivAt_id q.z).const_mul q.y).const_add (q.w * q.x)).const_mul
      2).sub_const a.y
    convert h using 1
    simp [Madgwick.J_g]
  · have h := hasDerivAt_const q.z (2 * (0.5 - q.x * q.x - q.y * q.y) - a.z)
    convert h using 1

/-- C9: over the reals, for every quaternion `q = (w, x, y, z)` and normalized
acceleration `a`, each entry `J_g[i][j]` of `Madgwick::update` is the partial
derivative of `F_g[i]` with respect to the `j`-th of `w, x, y, z`; the gradient
`qGrad` before normalization is the transpose of `J_g` times `F_g`; and its components
are the partial derivatives of `(1/2) * ||F_g||^2`. -/
theorem madgwick_gradient (q a : IMUMath.Quaternion ℝ) :
    (∀ i : Fin 3,
      HasDerivAt (fun t => Madgwick.F_g ⟨t, q.x, q.y, q.z⟩ a i) (Madgwick.J_g q i 0) q.w ∧
      HasDerivAt (fun t => Madgwick.F_g ⟨q.w, t, q.y, q.z⟩ a i) (Madgwick.J_g q i 1) q.x ∧
      HasDerivAt (fun t => Madgwick.F_g ⟨q.w, q.x, t, q.z⟩ a i) (Madgwick.J_g q i 2) q.y ∧
      HasDerivAt (fun t => Madgwick.F_g ⟨q.w, q.x, q.y, t⟩ a i) (Madgwick.J_g q i 3) q.z) ∧
    Matrix.mulVec (Matrix.transpose (Madgwick.J_g q)) (Madgwick.F_g q a) =
      ![(Madgwick.qGrad q a).w, (Madgwick.qGrad q a).x,
        (Madgwick.qGrad q a).y, (Madgwick.qGrad q a).z] ∧
    HasDerivAt (fun t => Madgwick.cost ⟨t, q.x, q.y, q.z⟩ a) (Madgwick.qGrad q a).w q.w ∧
    HasDerivAt (fun t => Madgwick.cost ⟨q.w, t, q.y, q.z⟩ a) (Madgwick.qGrad q a).x q.x ∧
    HasDerivAt (fun t => Madgwick.cost ⟨q.w, q.x, t, q.z⟩ a) (Madgwick.qGrad q a).y q.y ∧
    HasDerivAt (fun t => Madgwick.cost ⟨q.w, q.x, q.y, t⟩ a) (Madgwick.qGrad q a).z q.z := by
  refine ⟨fun i => ⟨F_g_hasDerivAt_w q a i, F_g_hasDerivAt_x q a i, F_g_hasDerivAt_y q a i,
    F_g_hasDerivAt_z q a i⟩, ?_, ?_, ?_, ?_, ?_⟩
  · funext j
    fin_cases j <;>
      simp [Matrix.mulVec, Matrix.dotProduct, Fin.sum_univ_three, Madgwick.qGrad]
  · have h := hasDerivAt_sq_half_sum _ _ _ _ _ _ _
      (F_g_hasDerivAt_w q a 0) (F_g_hasDerivAt_w q a 1) (F_g_hasDerivAt_w q a 2)
    simpa only [Madgwick.cost, Fin.sum_univ_three] using h
  · have h := hasDerivAt_sq_half_sum _ _ _ _ _ _ _
      (F_g_hasDerivAt_x q a 0) (F_g_hasDerivAt_x q a 1) (F_g_hasDerivAt_x q a 2)
    simpa only [Madgwick.cost, Fin.sum_univ_three] using h
  · have h := hasDerivAt_sq_half_sum _ _ _ _ _ _ _
      (F_g_hasDerivAt_y q a 0) (F_g_hasDerivAt_y q a 1) (F_g_hasDerivAt_y q a 2)
    simpa only [Madgwick.cost, Fin.sum_univ_three] using h
  · have h := hasDerivAt_sq_half_sum _ _ _ _ _ _ _
      (F_g_hasDerivAt_z q a 0) (F_g_hasDerivAt_z q a 1) (F_g_hasDerivAt_z q a 2)
    simpa only [Madgwick.cost, Fin.sum_univ_three] using h

end Firmware
